import Mathlib

/-!
Verification of the qwen-fast TTS/media service (src/main.py, src/video_concat.py,
src/engine.py).

The job orchestration layer (`process_generation_task`, `generate_audio`, the
`inference_lock` and the `JOBS` store) is embedded as a small-step transition
system: each step is one of the atomic segments of the asyncio coroutine
(code between two suspension points executes without interleaving on the
event loop).  The media pipeline (`concat_videos`, `merge_video_audio`,
`download_video`) is embedded as pure functions over explicit filesystem
listings, with external collaborators (the encoder, the remote fetch, the
ULID generator, moviepy clip operations) modelled at their interface.
-/

namespace QwenFast

/-- Directory roots fixed in src/main.py. -/
def OUTPUT_DIR : String := "/output"

def VOICE_DIR : String := "/voices"

def FINAL_OUTPUT_DIR : String := "/final_outputs"

/-- Embedding of Python `os.path.join(a, b)` for a relative second component. -/
def osJoin (a b : String) : String := a ++ "/" ++ b

/-- Embedding of Python `filename.startswith(voice_id)`: string-prefix test. -/
def startswith (filename voice_id : String) : Bool :=
  voice_id.data.isPrefixOf filename.data

/-- Voice resolution loop of `process_generation_task` (src/main.py lines 117-122):
first directory entry whose filename starts with the requested voice id. -/
def resolveVoice (listing : List String) (voice_id : String) : Option String :=
  listing.find? (fun filename => startswith filename voice_id)

/-- Job status values stored in the `JOBS` dict. -/
inductive Status where
  | queued
  | processing
  | completed
  | failed
deriving DecidableEq

/-- One `JOBS[task_id]` record: `{"status": .., "filename": .., "error": ..}`. -/
structure JobRec where
  status : Status
  filename : Option String
  error : Option String
deriving DecidableEq

/-- Program counter of one `process_generation_task` coroutine, marking the
suspension points of the asyncio code: before the voice-resolution segment,
waiting on `inference_lock`, holding the lock before setting the status,
awaiting the executor, and finished. -/
inductive TaskPC where
  | atStart
  | atWaitLock
  | atLocked
  | atRunning
  | atDone
deriving DecidableEq

/-- Static environment for `n` concurrently submitted jobs: the voice
directory listing, each job's requested voice id, and the outcome the
inference executor would produce for each job (output filename or the
string of the raised exception). -/
structure Env (n : Nat) where
  voices : List String
  voiceId : Fin n → String
  outcome : Fin n → Except String String

/-- Shared state: the `JOBS` store, each coroutine's program counter, and the
holder of `inference_lock` (`none` = unlocked). -/
structure SysState (n : Nat) where
  job : Fin n → JobRec
  pc : Fin n → TaskPC
  lock : Option (Fin n)

/-- State after `/generate` created all `n` job records: every record is
`{"status": "queued", "filename": None, "error": None}`, no coroutine has
run, the lock is free. -/
def initState (n : Nat) : SysState n :=
  ⟨fun _ => ⟨.queued, none, none⟩, fun _ => .atStart, none⟩

/-- Effect of the voice-resolution segment when no filename matches
(src/main.py lines 124-127): status "failed", error "Voice ID not found". -/
def applyResolveFail {n : Nat} (s : SysState n) (i : Fin n) : SysState n :=
  ⟨Function.update s.job i
      { s.job i with status := .failed, error := some "Voice ID not found" },
   Function.update s.pc i .atDone, s.lock⟩

/-- Effect of the voice-resolution segment when a filename matches: the
coroutine proceeds to `async with inference_lock` (line 130). -/
def applyResolveOk {n : Nat} (s : SysState n) (i : Fin n) : SysState n :=
  ⟨s.job, Function.update s.pc i .atWaitLock, s.lock⟩

/-- Effect of `inference_lock` being granted to coroutine `i`. -/
def applyAcquire {n : Nat} (s : SysState n) (i : Fin n) : SysState n :=
  ⟨s.job, Function.update s.pc i .atLocked, some i⟩

/-- Effect of the segment at line 132: `JOBS[task_id]["status"] = "processing"`,
then the inference call is handed to the executor (line 136). -/
def applyBeginProcessing {n : Nat} (s : SysState n) (i : Fin n) : SysState n :=
  ⟨Function.update s.job i { s.job i with status := .processing },
   Function.update s.pc i .atRunning, s.lock⟩

/-- Effect of the segment after the executor returns (lines 145-146): status
"completed", filename set, and `async with` releases the lock. -/
def applyFinishOk {n : Nat} (s : SysState n) (i : Fin n) (fname : String) : SysState n :=
  ⟨Function.update s.job i
      { s.job i with status := .completed, filename := some fname },
   Function.update s.pc i .atDone, none⟩

/-- Effect of the except branch (lines 148-150): status "failed", error set to
the exception string, and `async with` releases the lock. -/
def applyFinishErr {n : Nat} (s : SysState n) (i : Fin n) (msg : String) : SysState n :=
  ⟨Function.update s.job i
      { s.job i with status := .failed, error := some msg },
   Function.update s.pc i .atDone, none⟩

/-- Small-step relation: one atomic segment of one coroutine, interleaved
arbitrarily with the others.  `acquire` requires the lock to be free. -/
inductive Step {n : Nat} (env : Env n) : SysState n → SysState n → Prop where
  | resolveFail {s : SysState n} (i : Fin n) :
      s.pc i = .atStart → resolveVoice env.voices (env.voiceId i) = none →
      Step env s (applyResolveFail s i)
  | resolveOk {s : SysState n} (i : Fin n) :
      s.pc i = .atStart → (resolveVoice env.voices (env.voiceId i)).isSome →
      Step env s (applyResolveOk s i)
  | acquire {s : SysState n} (i : Fin n) :
      s.pc i = .atWaitLock → s.lock = none →
      Step env s (applyAcquire s i)
  | beginProcessing {s : SysState n} (i : Fin n) :
      s.pc i = .atLocked →
      Step env s (applyBeginProcessing s i)
  | finishOk {s : SysState n} (i : Fin n) {fname : String} :
      s.pc i = .atRunning → env.outcome i = .ok fname →
      Step env s (applyFinishOk s i fname)
  | finishErr {s : SysState n} (i : Fin n) {msg : String} :
      s.pc i = .atRunning → env.outcome i = .error msg →
      Step env s (applyFinishErr s i msg)

/-- States reachable from the initial state by interleaved execution. -/
def Reachable {n : Nat} (env : Env n) (s : SysState n) : Prop :=
  Relation.ReflTransGen (Step env) (initState n) s

/-- Inductive invariant of the job system, tying each coroutine's program
counter to the lock holder and to the shape of its job record. -/
structure Inv {n : Nat} (env : Env n) (s : SysState n) : Prop where
  lock_of_pc : ∀ i, s.pc i = .atLocked ∨ s.pc i = .atRunning → s.lock = some i
  pc_of_lock : ∀ i, s.lock = some i → s.pc i = .atLocked ∨ s.pc i = .atRunning
  job_pre : ∀ i, s.pc i = .atStart ∨ s.pc i = .atWaitLock ∨ s.pc i = .atLocked →
    s.job i = ⟨.queued, none, none⟩
  job_run : ∀ i, s.pc i = .atRunning → s.job i = ⟨.processing, none, none⟩
  job_done : ∀ i, s.pc i = .atDone →
    (∃ f, s.job i = ⟨.completed, some f, none⟩) ∨
    (∃ e, s.job i = ⟨.failed, none, some e⟩)
  resolved_of_pc : ∀ i,
    s.pc i = .atWaitLock ∨ s.pc i = .atLocked ∨ s.pc i = .atRunning →
    (resolveVoice env.voices (env.voiceId i)).isSome
  done_no_voice : ∀ i, s.pc i = .atDone →
    resolveVoice env.voices (env.voiceId i) = none →
    s.job i = ⟨.failed, none, some "Voice ID not found"⟩

theorem inv_init {n : Nat} (env : Env n) : Inv env (initState n) := by
  constructor <;> intro i h <;> simp [initState] at h ⊢

theorem inv_step {n : Nat} {env : Env n} {s s' : SysState n}
    (inv : Inv env s) (hs : Step env s s') : Inv env s' := by
  cases hs with
  | resolveFail i hpc hres =>
    have hj : s.job i = ⟨.queued, none, none⟩ := inv.job_pre i (Or.inl hpc)
    refine ⟨?_, ?_, ?_, ?_, ?_, ?_, ?_⟩ <;> intro j h
    · by_cases hji : j = i
      · subst hji; simp [applyResolveFail, Function.update_same] at h
      · simp [applyResolveFail, Function.update_noteq hji] at h ⊢
        exact inv.lock_of_pc j h
    · simp [applyResolveFail] at h
      have hpcj := inv.pc_of_lock j h
      have hji : j ≠ i := by
        rintro rfl
        rw [hpc] at hpcj
        rcases hpcj with h' | h' <;> exact absurd h' (by simp)
      simp [applyResolveFail, Function.update_noteq hji]
      exact hpcj
    · by_cases hji : j = i
      · subst hji; simp [applyResolveFail, Function.update_same] at h
      · simp [applyResolveFail, Function.update_noteq hji] at h ⊢
        exact inv.job_pre j h
    · by_cases hji : j = i
      · subst hji; simp [applyResolveFail, Function.update_same] at h
      · simp [applyResolveFail, Function.update_noteq hji] at h ⊢
        exact inv.job_run j h
    · by_cases hji : j = i
      · subst hji
        simp [applyResolveFail, Function.update_same, hj]
      · simp [applyResolveFail, Function.update_noteq hji] at h ⊢
        exact inv.job_done j h
    · by_cases hji : j = i
      · subst hji; simp [applyResolveFail, Function.update_same] at h
      · simp [applyResolveFail, Function.update_noteq hji] at h ⊢
        exact inv.resolved_of_pc j h
    · intro hnone
      by_cases hji : j = i
      · subst hji
        simp [applyResolveFail, Function.update_same, hj]
      · simp [applyResolveFail, Function.update_noteq hji] at h ⊢
        exact inv.done_no_voice j h hnone
  | resolveOk i hpc hres =>
    refine ⟨?_, ?_, ?_, ?_, ?_, ?_, ?_⟩ <;> intro j h
    · by_cases hji : j = i
      · subst hji; simp [applyResolveOk, Function.update_same] at h
      · simp [applyResolveOk, Function.update_noteq hji] at h ⊢
        exact inv.lock_of_pc j h
    · simp [applyResolveOk] at h
      have hpcj := inv.pc_of_lock j h
      have hji : j ≠ i := by
        rintro rfl
        rw [hpc] at hpcj
        rcases hpcj with h' | h' <;> exact absurd h' (by simp)
      simp [applyResolveOk, Function.update_noteq hji]
      exact hpcj
    · by_cases hji : j = i
      · subst hji
        simp [applyResolveOk]
        exact inv.job_pre j (Or.inl hpc)
      · simp [applyResolveOk, Function.update_noteq hji] at h ⊢
        exact inv.job_pre j h
    · by_cases hji : j = i
      · subst hji; simp [applyResolveOk, Function.update_same] at h
      · simp [applyResolveOk, Function.update_noteq hji] at h ⊢
        exact inv.job_run j h
    · by_cases hji : j = i
      · subst hji; simp [applyResolveOk, Function.update_same] at h
      · simp [applyResolveOk, Function.update_noteq hji] at h ⊢
        exact inv.job_done j h
    · by_cases hji : j = i
      · subst hji; exact hres
      · simp [applyResolveOk, Function.update_noteq hji] at h ⊢
        exact inv.resolved_of_pc j h
    · intro hnone
      by_cases hji : j = i
      · subst hji; simp [applyResolveOk, Function.update_same] at h
      · simp [applyResolveOk, Function.update_noteq hji] at h ⊢
        exact inv.done_no_voice j h hnone
  | acquire i hpc hl =>
    refine ⟨?_, ?_, ?_, ?_, ?_, ?_, ?_⟩ <;> intro j h
    · by_cases hji : j = i
      · subst hji; simp [applyAcquire]
      · simp [applyAcquire, Function.update_noteq hji] at h ⊢
        have := inv.lock_of_pc j h
        rw [hl] at this
        exact absurd this (by simp)
    · simp [applyAcquire] at h
      subst h
      simp [applyAcquire, Function.update_same]
    · by_cases hji : j = i
      · subst hji
        simp [applyAcquire]
        exact inv.job_pre j (Or.inr (Or.inl hpc))
      · simp [applyAcquire, Function.update_noteq hji] at h ⊢
        exact inv.job_pre j h
    · by_cases hji : j = i
      · subst hji; simp [applyAcquire, Function.update_same] at h
      · simp [applyAcquire, Function.update_noteq hji] at h ⊢
        exact inv.job_run j h
    · by_cases hji : j = i
      · subst hji; simp [applyAcquire, Function.update_same] at h
      · simp [applyAcquire, Function.update_noteq hji] at h ⊢
        exact inv.job_done j h
    · by_cases hji : j = i
      · subst hji
        exact inv.resolved_of_pc j (Or.inl hpc)
      · simp [applyAcquire, Function.update_noteq hji] at h ⊢
        exact inv.resolved_of_pc j h
    · intro hnone
      by_cases hji : j = i
      · subst hji; simp [applyAcquire, Function.update_same] at h
      · simp [applyAcquire, Function.update_noteq hji] at h ⊢
        exact inv.done_no_voice j h hnone
  | beginProcessing i hpc =>
    have hlk : s.lock = some i := inv.lock_of_pc i (Or.inl hpc)
    have hj : s.job i = ⟨.queued, none, none⟩ :=
      inv.job_pre i (Or.inr (Or.inr hpc))
    refine ⟨?_, ?_, ?_, ?_, ?_, ?_, ?_⟩ <;> intro j h
    · by_cases hji : j = i
      · subst hji; simp [applyBeginProcessing, hlk]
      · simp [applyBeginProcessing, Function.update_noteq hji] at h ⊢
        exact inv.lock_of_pc j h
    · simp [applyBeginProcessing] at h
      have hpcj := inv.pc_of_lock j h
      by_cases hji : j = i
      · subst hji; simp [applyBeginProcessing, Function.update_same]
      · simp [applyBeginProcessing, Function.update_noteq hji]
        exact hpcj
    · by_cases hji : j = i
      · subst hji; simp [applyBeginProcessing, Function.update_same] at h
      · simp [applyBeginProcessing, Function.update_noteq hji] at h ⊢
        exact inv.job_pre j h
    · by_cases hji : j = i
      · subst hji
        simp [applyBeginProcessing, Function.update_same, hj]
      · simp [applyBeginProcessing, Function.update_noteq hji] at h ⊢
        exact inv.job_run j h
    · by_cases hji : j = i
      · subst hji; simp [applyBeginProcessing, Function.update_same] at h
      · simp [applyBeginProcessing, Function.update_noteq hji] at h ⊢
        exact inv.job_done j h
    · by_cases hji : j = i
      · subst hji
        exact inv.resolved_of_pc j (Or.inr (Or.inl hpc))
      · simp [applyBeginProcessing, Function.update_noteq hji] at h ⊢
        exact inv.resolved_of_pc j h
    · intro hnone
      by_cases hji : j = i
      · subst hji; simp [applyBeginProcessing, Function.update_same] at h
      · simp [applyBeginProcessing, Function.update_noteq hji] at h ⊢
        exact inv.done_no_voice j h hnone
  | finishOk i hpc hout =>
    have hlk : s.lock = some i := inv.lock_of_pc i (Or.inr hpc)
    have hj : s.job i = ⟨.processing, none, none⟩ := inv.job_run i hpc
    refine ⟨?_, ?_, ?_, ?_, ?_, ?_, ?_⟩ <;> intro j h
    · by_cases hji : j = i
      · subst hji; simp [applyFinishOk, Function.update_same] at h
      · simp [applyFinishOk, Function.update_noteq hji] at h ⊢
        have := inv.lock_of_pc j h
        rw [hlk] at this
        exact absurd (Option.some_injective _ this) (Ne.symm hji)
    · simp [applyFinishOk] at h
    · by_cases hji : j = i
      · subst hji; simp [applyFinishOk, Function.update_same] at h
      · simp [applyFinishOk, Function.update_noteq hji] at h ⊢
        exact inv.job_pre j h
    · by_cases hji : j = i
      · subst hji; simp [applyFinishOk, Function.update_same] at h
      · simp [applyFinishOk, Function.update_noteq hji] at h ⊢
        exact inv.job_run j h
    · by_cases hji : j = i
      · subst hji
        simp [applyFinishOk, Function.update_same, hj]
      · simp [applyFinishOk, Function.update_noteq hji] at h ⊢
        exact inv.job_done j h
    · by_cases hji : j = i
      · subst hji; simp [applyFinishOk, Function.update_same] at h
      · simp [applyFinishOk, Function.update_noteq hji] at h ⊢
        exact inv.resolved_of_pc j h
    · intro hnone
      by_cases hji : j = i
      · subst hji
        have := inv.resolved_of_pc j (Or.inr (Or.inr hpc))
        rw [hnone] at this
        simp at this
      · simp [applyFinishOk, Function.update_noteq hji] at h ⊢
        exact inv.done_no_voice j h hnone
  | finishErr i hpc hout =>
    have hlk : s.lock = some i := inv.lock_of_pc i (Or.inr hpc)
    have hj : s.job i = ⟨.processing, none, none⟩ := inv.job_run i hpc
    refine ⟨?_, ?_, ?_, ?_, ?_, ?_, ?_⟩ <;> intro j h
    · by_cases hji : j = i
      · subst hji; simp [applyFinishErr, Function.update_same] at h
      · simp [applyFinishErr, Function.update_noteq hji] at h ⊢
        have := inv.lock_of_pc j h
        rw [hlk] at this
        exact absurd (Option.some_injective _ this) (Ne.symm hji)
    · simp [applyFinishErr] at h
    · by_cases hji : j = i
      · subst hji; simp [applyFinishErr, Function.update_same] at h
      · simp [applyFinishErr, Function.update_noteq hji] at h ⊢
        exact inv.job_pre j h
    · by_cases hji : j = i
      · subst hji; simp [applyFinishErr, Function.update_same] at h
      · simp [applyFinishErr, Function.update_noteq hji] at h ⊢
        exact inv.job_run j h
    · by_cases hji : j = i
      · subst hji
        simp [applyFinishErr, Function.update_same, hj]
      · simp [applyFinishErr, Function.update_noteq hji] at h ⊢
        exact inv.job_done j h
    · by_cases hji : j = i
      · subst hji; simp [applyFinishErr, Function.update_same] at h
      · simp [applyFinishErr, Function.update_noteq hji] at h ⊢
        exact inv.resolved_of_pc j h
    · intro hnone
      by_cases hji : j = i
      · subst hji
        have := inv.resolved_of_pc j (Or.inr (Or.inr hpc))
        rw [hnone] at this
        simp at this
      · simp [applyFinishErr, Function.update_noteq hji] at h ⊢
        exact inv.done_no_voice j h hnone

theorem reachable_inv {n : Nat} {env : Env n} {s : SysState n}
    (hr : Reachable env s) : Inv env s := by
  induction hr with
  | refl => exact inv_init env
  | tail _ hstep ih => exact inv_step ih hstep

theorem pc_running_of_processing {n : Nat} {env : Env n} {s : SysState n}
    (inv : Inv env s) (i : Fin n)
    (h : (s.job i).status = .processing) : s.pc i = .atRunning := by
  cases hpc : s.pc i with
  | atStart => rw [inv.job_pre i (Or.inl hpc)] at h; exact absurd h (by simp)
  | atWaitLock =>
    rw [inv.job_pre i (Or.inr (Or.inl hpc))] at h; exact absurd h (by simp)
  | atLocked =>
    rw [inv.job_pre i (Or.inr (Or.inr hpc))] at h; exact absurd h (by simp)
  | atRunning => rfl
  | atDone =>
    rcases inv.job_done i hpc with ⟨f, hf⟩ | ⟨e, he⟩
    · rw [hf] at h; exact absurd h (by simp)
    · rw [he] at h; exact absurd h (by simp)

/-- C1: at most one of the concurrently submitted jobs has status
"processing" at any reachable instant, and any job whose status is
"processing" is the current holder of `inference_lock`; the status is set to
"processing" only inside the lock's critical section and reverts to a
terminal status no later than the release. -/
theorem mutual_exclusion {n : Nat} {env : Env n} {s : SysState n}
    (hr : Reachable env s) :
    (∀ i j : Fin n, (s.job i).status = .processing →
      (s.job j).status = .processing → i = j) ∧
    (∀ i : Fin n, (s.job i).status = .processing → s.lock = some i) := by
  have inv := reachable_inv hr
  have hlock : ∀ i : Fin n, (s.job i).status = .processing → s.lock = some i :=
    fun i h => inv.lock_of_pc i (Or.inr (pc_running_of_processing inv i h))
  refine ⟨fun i j hi hj => ?_, hlock⟩
  have h1 := hlock i hi
  have h2 := hlock j hj
  rw [h1] at h2
  exact Option.some_injective _ h2

/-- Status transitions permitted by the spec's job state machine:
reflexive stutter, `Queued → Processing`, the unknown-voice shortcut
`Queued → Failed`, and `Processing → {Completed, Failed}`. -/
inductive StatusTrans : Status → Status → Prop where
  | stutter (st : Status) : StatusTrans st st
  | toProcessing : StatusTrans .queued .processing
  | queuedToFailed : StatusTrans .queued .failed
  | toCompleted : StatusTrans .processing .completed
  | toFailed : StatusTrans .processing .failed

/-- C2: every step of the system moves each job's status along the state
machine `Queued → Processing → {Completed | Failed}` (with the shortcut
`Queued → Failed`), and a job that has reached "completed" or "failed" is
never mutated again. -/
theorem job_state_machine {n : Nat} {env : Env n} {s s' : SysState n}
    (hr : Reachable env s) (hs : Step env s s') (i : Fin n) :
    StatusTrans (s.job i).status ((s'.job i).status) ∧
    ((s.job i).status = .completed ∨ (s.job i).status = .failed →
      s'.job i = s.job i) := by
  have inv := reachable_inv hr
  cases hs with
  | resolveFail k hpc hres =>
    by_cases hik : i = k
    · subst hik
      have hj := inv.job_pre i (Or.inl hpc)
      constructor
      · rw [hj]
        simp [applyResolveFail, Function.update_same]
        exact .queuedToFailed
      · intro hterm
        rw [hj] at hterm
        rcases hterm with h' | h' <;> exact absurd h' (by simp)
    · simp [applyResolveFail, Function.update_noteq hik]
      exact .stutter _
  | resolveOk k hpc hres =>
    simp [applyResolveOk]
    exact .stutter _
  | acquire k hpc hl =>
    simp [applyAcquire]
    exact .stutter _
  | beginProcessing k hpc =>
    by_cases hik : i = k
    · subst hik
      have hj := inv.job_pre i (Or.inr (Or.inr hpc))
      constructor
      · rw [hj]
        simp [applyBeginProcessing, Function.update_same]
        exact .toProcessing
      · intro hterm
        rw [hj] at hterm
        rcases hterm with h' | h' <;> exact absurd h' (by simp)
    · simp [applyBeginProcessing, Function.update_noteq hik]
      exact .stutter _
  | finishOk k hpc hout =>
    by_cases hik : i = k
    · subst hik
      have hj := inv.job_run i hpc
      constructor
      · rw [hj]
        simp [applyFinishOk, Function.update_same]
        exact .toCompleted
      · intro hterm
        rw [hj] at hterm
        rcases hterm with h' | h' <;> exact absurd h' (by simp)
    · simp [applyFinishOk, Function.update_noteq hik]
      exact .stutter _
  | finishErr k hpc hout =>
    by_cases hik : i = k
    · subst hik
      have hj := inv.job_run i hpc
      constructor
      · rw [hj]
        simp [applyFinishErr, Function.update_same]
        exact .toFailed
      · intro hterm
        rw [hj] at hterm
        rcases hterm with h' | h' <;> exact absurd h' (by simp)
    · simp [applyFinishErr, Function.update_noteq hik]
      exact .stutter _

/-- C5: a job whose voice id matches no filename in the voice directory is
never "processing", never holds or waits on `inference_lock` (its coroutine
is only ever before the resolution segment or finished), and if it has
failed the stored error is exactly "Voice ID not found"; when its coroutine
has run, the job record is exactly the failed record. -/
theorem unknown_voice_direct_fail {n : Nat} {env : Env n} {s : SysState n}
    (hr : Reachable env s) (i : Fin n)
    (hres : resolveVoice env.voices (env.voiceId i) = none) :
    (s.job i).status ≠ .processing ∧
    s.lock ≠ some i ∧
    (s.pc i = .atStart ∨ s.pc i = .atDone) ∧
    ((s.job i).status = .failed → (s.job i).error = some "Voice ID not found") ∧
    (s.pc i = .atDone → s.job i = ⟨.failed, none, some "Voice ID not found"⟩) := by
  have inv := reachable_inv hr
  have hmid : ¬ (s.pc i = .atWaitLock ∨ s.pc i = .atLocked ∨ s.pc i = .atRunning) := by
    intro h
    have := inv.resolved_of_pc i h
    rw [hres] at this
    simp at this
  have hpos : s.pc i = .atStart ∨ s.pc i = .atDone := by
    cases h : s.pc i <;> simp_all
  refine ⟨?_, ?_, hpos, ?_, fun h => inv.done_no_voice i h hres⟩
  · intro hproc
    exact hmid (Or.inr (Or.inr (pc_running_of_processing inv i hproc)))
  · intro hlk
    rcases inv.pc_of_lock i hlk with h' | h'
    · exact hmid (Or.inr (Or.inl h'))
    · exact hmid (Or.inr (Or.inr h'))
  · intro hfail
    rcases hpos with h' | h'
    · rw [inv.job_pre i (Or.inl h')] at hfail
      exact absurd hfail (by simp)
    · rw [inv.done_no_voice i h' hres]

/-- C8: in every reachable state each job record satisfies the
status-gated exclusivity: the filename is set exactly when the status is
"completed", the error exactly when it is "failed", and both are unset
while the job is queued or processing. -/
theorem job_record_exclusive {n : Nat} {env : Env n} {s : SysState n}
    (hr : Reachable env s) (i : Fin n) :
    ((s.job i).filename.isSome ↔ (s.job i).status = .completed) ∧
    ((s.job i).error.isSome ↔ (s.job i).status = .failed) ∧
    ((s.job i).status = .queued ∨ (s.job i).status = .processing →
      (s.job i).filename = none ∧ (s.job i).error = none) := by
  have inv := reachable_inv hr
  cases hpc : s.pc i with
  | atStart => rw [inv.job_pre i (Or.inl hpc)]; simp
  | atWaitLock => rw [inv.job_pre i (Or.inr (Or.inl hpc))]; simp
  | atLocked => rw [inv.job_pre i (Or.inr (Or.inr hpc))]; simp
  | atRunning => rw [inv.job_run i hpc]; simp
  | atDone =>
    rcases inv.job_done i hpc with ⟨f, hf⟩ | ⟨e, he⟩
    · rw [hf]; simp
    · rw [he]; simp

/-- Concrete two-job environment whose requested voice id matches the first
stored sample. -/
def envMatch : Env 2 :=
  ⟨["alice.wav", "bob.wav"], fun _ => "alice", fun _ => Except.ok "out.wav"⟩

/-- Concrete two-job environment whose requested voice id matches nothing. -/
def envNoMatch : Env 2 :=
  ⟨["alice.wav", "bob.wav"], fun _ => "zzz", fun _ => Except.ok "out.wav"⟩

/-- State in which job 0 has resolved its voice, acquired the lock and set
its status to "processing". -/
def sProc : SysState 2 :=
  applyBeginProcessing (applyAcquire (applyResolveOk (initState 2) 0) 0) 0

theorem sProc_reachable : Reachable envMatch sProc := by
  have h1 : Step envMatch (initState 2) (applyResolveOk (initState 2) 0) :=
    Step.resolveOk 0 rfl (by decide)
  have h2 : Step envMatch (applyResolveOk (initState 2) 0)
      (applyAcquire (applyResolveOk (initState 2) 0) 0) :=
    Step.acquire 0 (by decide) rfl
  have h3 : Step envMatch (applyAcquire (applyResolveOk (initState 2) 0) 0) sProc :=
    Step.beginProcessing 0 (by decide)
  exact Relation.ReflTransGen.tail (Relation.ReflTransGen.tail
    (Relation.ReflTransGen.tail Relation.ReflTransGen.refl h1) h2) h3

/-- State in which the unknown-voice job 0 has run its resolution segment. -/
def sNoVoice : SysState 2 := applyResolveFail (initState 2) 0

theorem sNoVoice_reachable : Reachable envNoMatch sNoVoice :=
  Relation.ReflTransGen.tail Relation.ReflTransGen.refl
    (Step.resolveFail 0 rfl (by decide))

theorem mutual_exclusion_witness : sProc.lock = some 0 :=
  (mutual_exclusion sProc_reachable).2 0 (by decide)

theorem job_state_machine_witness :
    StatusTrans ((sProc.job 0).status)
      (((applyFinishOk sProc 0 "out.wav").job 0).status) :=
  (job_state_machine sProc_reachable
    (Step.finishOk 0 (by decide) rfl) 0).1

theorem unknown_voice_direct_fail_witness :
    (sNoVoice.job 0).status ≠ Status.processing ∧
    sNoVoice.lock ≠ some 0 ∧
    (sNoVoice.pc 0 = TaskPC.atStart ∨ sNoVoice.pc 0 = TaskPC.atDone) ∧
    ((sNoVoice.job 0).status = Status.failed →
      (sNoVoice.job 0).error = some "Voice ID not found") ∧
    (sNoVoice.pc 0 = TaskPC.atDone →
      sNoVoice.job 0 = ⟨Status.failed, none, some "Voice ID not found"⟩) :=
  unknown_voice_direct_fail sNoVoice_reachable 0 (by decide)

/-- Decidable string comparison used to embed Python `sorted` on filenames:
code-point lexicographic order, computed on the character lists. -/
def strle (a b : String) : Bool := !decide (b.toList < a.toList)

/-- Propositional form of `strle`. -/
def StrLE (a b : String) : Prop := strle a b = true

instance : DecidableRel StrLE := fun a b => instDecidableEqBool (strle a b) true

theorem strLE_iff (a b : String) : StrLE a b ↔ a ≤ b := by
  rw [String.le_iff_toList_le, ← not_lt]
  simp [StrLE, strle]

instance : IsTotal String StrLE :=
  ⟨fun a b => by rw [strLE_iff, strLE_iff]; exact le_total a b⟩

instance : IsTrans String StrLE :=
  ⟨fun a b c h1 h2 => by
    rw [strLE_iff] at h1 h2 ⊢
    exact le_trans h1 h2⟩

/-- Recognized video extensions (src/video_concat.py line 7). -/
def VIDEO_EXTENSIONS : List String :=
  [".mp4", ".mov", ".avi", ".mkv", ".webm", ".flv"]

/-- Embedding of Python `s.endswith(suffix)` on the character lists. -/
def endswith (s sfx : String) : Bool := sfx.data.isSuffixOf s.data

/-- Embedding of Python `f.lower()` (ASCII lowering, which is all the
extension comparison exercises). -/
def lowerStr (s : String) : String := ⟨s.data.map Char.toLower⟩

/-- Selection test of `concat_videos`: `f.lower().endswith(VIDEO_EXTENSIONS)`. -/
def isVideoFile (f : String) : Bool :=
  VIDEO_EXTENSIONS.any (fun ext => endswith (lowerStr f) ext)

/-- Errors `concat_videos` can raise: the `ValueError` of the file-count
check (mapped to HTTP 400 by the endpoint) and a failure of the encoder
(any other exception, mapped to HTTP 500). -/
inductive ConcatErr where
  | valueError (msg : String)
  | encodeError (msg : String)
deriving DecidableEq

/-- Observable effects of one `concat_videos` call: its return value or
exception, the filesystem paths existing afterwards, the video clips opened
for concatenation in order, and the deferred deletions registered. -/
structure ConcatEffects where
  result : Except ConcatErr String
  fs : List String
  inputs : List String
  scheduled : List (String × Nat)

/-- Embedding of `concat_videos` (src/video_concat.py lines 10-44) over the
folder's directory listing.  `fs0` is the set of paths existing before the
call; `encodeOk` is whether the external encoder (`write_videofile`)
succeeds.  The sorted selection mirrors
`sorted(f for f in os.listdir(folder) if f.lower().endswith(VIDEO_EXTENSIONS))`;
fewer than 2 files raises `ValueError`; on success the output file exists,
the folder is handed to the deletion timer with a 2-day delay, and nothing
is deleted. -/
def concat_videos (fs0 listing : List String) (folder output_path : String)
    (encodeOk : Bool) : ConcatEffects :=
  let files := (listing.filter isVideoFile).insertionSort StrLE
  if files.length < 2 then
    ⟨.error (.valueError ("Need at least 2 video files in folder, found "
        ++ toString files.length)), fs0, [], []⟩
  else if encodeOk then
    ⟨.ok output_path, output_path :: fs0, files, [(folder, 2 * 24 * 60 * 60)]⟩
  else
    ⟨.error (.encodeError "write_videofile failed"), fs0, files, []⟩

/-- HTTP error as raised via FastAPI `HTTPException`. -/
structure HttpError where
  status_code : Nat
  detail : String
deriving DecidableEq

/-- Embedding of the `/videos/concat` endpoint (src/main.py lines 317-339):
404 when the project folder is missing, 400 for the `ValueError` of the
file-count check, 500 for any other failure, 200 with the output path
otherwise. -/
def concat_video_endpoint (isdir : Bool) (fs0 listing : List String)
    (project_folder : String) (encodeOk : Bool) : Except HttpError String :=
  if isdir = false then .error ⟨404, "Project folder not found"⟩
  else
    match (concat_videos fs0 listing (osJoin OUTPUT_DIR project_folder)
        (osJoin OUTPUT_DIR (project_folder ++ "_final.mp4")) encodeOk).result with
    | .error (.valueError msg) => .error ⟨400, msg⟩
    | .error (.encodeError msg) => .error ⟨500, "Concat failed: " ++ msg⟩
    | .ok p => .ok p

/-- Embedding of the `_delete` closure of `_schedule_folder_deletion`
(src/video_concat.py lines 49-51), run when the timer fires: delete the
folder only if it still exists; `shutil.rmtree(.., ignore_errors=True)`
swallows a failing deletion (`rmOk = false` leaves the tree in place but
raises nothing). -/
def timer_delete (fs : List String) (folder : String) (rmOk : Bool) : List String :=
  if folder ∈ fs then (if rmOk then fs.erase folder else fs) else fs

/-- C4: the concat endpoint selects exactly the recognized video files of
the project directory, fails with HTTP 400 and the `ValueError` message when
fewer than 2 exist, and otherwise concatenates them in ascending filename
order into `{projectFolder}_final.mp4` inside the output directory. -/
theorem concat_selection_ordering (fs0 listing : List String)
    (project_folder : String) :
    (∀ encodeOk : Bool,
      ((listing.filter isVideoFile).insertionSort StrLE).length < 2 →
      concat_video_endpoint true fs0 listing project_folder encodeOk =
        Except.error ⟨400, "Need at least 2 video files in folder, found "
          ++ toString ((listing.filter isVideoFile).insertionSort StrLE).length⟩) ∧
    (2 ≤ ((listing.filter isVideoFile).insertionSort StrLE).length →
      concat_video_endpoint true fs0 listing project_folder true =
        Except.ok (osJoin OUTPUT_DIR (project_folder ++ "_final.mp4")) ∧
      (concat_videos fs0 listing (osJoin OUTPUT_DIR project_folder)
          (osJoin OUTPUT_DIR (project_folder ++ "_final.mp4")) true).inputs =
        (listing.filter isVideoFile).insertionSort StrLE) ∧
    ((listing.filter isVideoFile).insertionSort StrLE).Perm
      (listing.filter isVideoFile) ∧
    List.Pairwise (fun a b : String => a ≤ b)
      ((listing.filter isVideoFile).insertionSort StrLE) := by
  refine ⟨?_, ?_, List.perm_insertionSort StrLE _, ?_⟩
  · intro encodeOk hlt
    have hres : concat_videos fs0 listing (osJoin OUTPUT_DIR project_folder)
        (osJoin OUTPUT_DIR (project_folder ++ "_final.mp4")) encodeOk =
        ⟨.error (.valueError ("Need at least 2 video files in folder, found "
          ++ toString ((listing.filter isVideoFile).insertionSort StrLE).length)),
         fs0, [], []⟩ := by
      simp only [concat_videos]
      rw [if_pos hlt]
    simp [concat_video_endpoint, hres]
  · intro hge
    have hres : concat_videos fs0 listing (osJoin OUTPUT_DIR project_folder)
        (osJoin OUTPUT_DIR (project_folder ++ "_final.mp4")) true =
        ⟨.ok (osJoin OUTPUT_DIR (project_folder ++ "_final.mp4")),
         osJoin OUTPUT_DIR (project_folder ++ "_final.mp4") :: fs0,
         (listing.filter isVideoFile).insertionSort StrLE,
         [(osJoin OUTPUT_DIR project_folder, 2 * 24 * 60 * 60)]⟩ := by
      simp only [concat_videos]
      rw [if_neg (Nat.not_lt.mpr hge)]
      simp
    constructor
    · simp [concat_video_endpoint, hres]
    · rw [hres]
  · exact (List.sorted_insertionSort StrLE (listing.filter isVideoFile)).imp
      (fun h => (strLE_iff _ _).mp h)

theorem concat_selection_ordering_witness :
    concat_video_endpoint true [] ["b.mp4", "a.mp4", "x.txt"] "proj" true =
      Except.ok (osJoin OUTPUT_DIR ("proj" ++ "_final.mp4")) ∧
    (concat_videos [] ["b.mp4", "a.mp4", "x.txt"] (osJoin OUTPUT_DIR "proj")
        (osJoin OUTPUT_DIR ("proj" ++ "_final.mp4")) true).inputs =
      (["b.mp4", "a.mp4", "x.txt"].filter isVideoFile).insertionSort StrLE :=
  (concat_selection_ordering [] ["b.mp4", "a.mp4", "x.txt"] "proj").2.1 (by decide)

/-- C6: `concat_videos` schedules the source folder for deletion with the
fixed 2-day (172800 s) delay exactly when it succeeds, schedules nothing on
a validation or encoder failure, itself deletes no pre-existing path, and
the fired timer deletes the folder only if it still exists, swallowing a
failing deletion. -/
theorem deferred_cleanup (fs0 listing : List String) (folder output_path : String)
    (encodeOk : Bool) :
    (∀ p, (concat_videos fs0 listing folder output_path encodeOk).result =
        Except.ok p →
      (concat_videos fs0 listing folder output_path encodeOk).scheduled =
        [(folder, 172800)]) ∧
    (∀ e, (concat_videos fs0 listing folder output_path encodeOk).result =
        Except.error e →
      (concat_videos fs0 listing folder output_path encodeOk).scheduled = []) ∧
    (∀ p, p ∈ fs0 → p ∈ (concat_videos fs0 listing folder output_path encodeOk).fs) ∧
    2 * 24 * 60 * 60 = 172800 ∧
    (∀ rmOk : Bool, folder ∉ fs0 → timer_delete fs0 folder rmOk = fs0) ∧
    (∀ rmOk : Bool, timer_delete fs0 folder rmOk = fs0 ∨
      timer_delete fs0 folder rmOk = fs0.erase folder) := by
  refine ⟨?_, ?_, ?_, by norm_num, ?_, ?_⟩
  · intro p hp
    simp only [concat_videos] at hp ⊢
    split_ifs at hp ⊢ with h1 h2 <;> simp_all
  · intro e he
    simp only [concat_videos] at he ⊢
    split_ifs at he ⊢ with h1 h2 <;> simp_all
  · intro p hp
    simp only [concat_videos]
    split_ifs <;> simp [hp]
  · intro rmOk hnm
    simp [timer_delete, hnm]
  · intro rmOk
    simp only [timer_delete]
    split_ifs <;> simp

theorem deferred_cleanup_witness :
    (concat_videos ["/output/proj"] ["a.mp4", "b.mp4"] "/output/proj"
        "/output/proj_final.mp4" true).scheduled = [("/output/proj", 172800)] :=
  (deferred_cleanup ["/output/proj"] ["a.mp4", "b.mp4"] "/output/proj"
    "/output/proj_final.mp4" true).1 "/output/proj_final.mp4" rfl

theorem job_record_exclusive_witness :
    ((sProc.job 0).filename.isSome ↔ (sProc.job 0).status = Status.completed) ∧
    ((sProc.job 0).error.isSome ↔ (sProc.job 0).status = Status.failed) ∧
    ((sProc.job 0).status = Status.queued ∨ (sProc.job 0).status = Status.processing →
      (sProc.job 0).filename = none ∧ (sProc.job 0).error = none) :=
  job_record_exclusive sProc_reachable 0

/-- Audio clip handed to the merge: its duration in seconds and an abstract
sample content. -/
structure AudioClip where
  duration : ℚ
  samples : Nat

/-- Video clip: duration, abstract frame content indexed by time, and the
attached audio track. -/
structure VideoClip where
  duration : ℚ
  frame : ℚ → Nat
  audio : Option AudioClip

/-- Modelled from the spec: moviepy's `with_duration`, the
`trimOrLoopToDuration` collaborator the spec leaves at its interface — the
clip's duration becomes `t` and
its content is read modulo the original duration, so a longer source is
truncated and a shorter one looped. -/
def with_duration (clip : VideoClip) (t : ℚ) : VideoClip :=
  { clip with
    duration := t
    frame := fun s =>
      clip.frame (if clip.duration ≤ 0 then s
        else s - clip.duration * ⌊s / clip.duration⌋) }

/-- Modelled from the spec: moviepy's `with_audio` attaches the given audio
track, replacing any existing one. -/
def with_audio (clip : VideoClip) (a : AudioClip) : VideoClip :=
  { clip with audio := some a }

/-- Embedding of `merge_video_audio` (src/video_concat.py lines 58-82):
`video.with_duration(audio.duration)` then `video.with_audio(audio)`. -/
def merge_video_audio (video : VideoClip) (audio : AudioClip) : VideoClip :=
  with_audio (with_duration video audio.duration) audio

/-- C3: the merge output's duration equals the audio's duration, its audio
track is exactly the supplied audio (replacing whatever the video carried),
its frames agree with the source video wherever both are defined (the video
is truncated when longer), and beyond the source's duration the frames wrap
around modulo the source duration (looped when shorter). -/
theorem merge_duration_audio (video : VideoClip) (audio : AudioClip) :
    (merge_video_audio video audio).duration = audio.duration ∧
    (merge_video_audio video audio).audio = some audio ∧
    (∀ s : ℚ, 0 ≤ s → s < video.duration →
      (merge_video_audio video audio).frame s = video.frame s) ∧
    (0 < video.duration → ∀ s : ℚ,
      (merge_video_audio video audio).frame s =
        video.frame (s - video.duration * ⌊s / video.duration⌋)) := by
  refine ⟨rfl, rfl, ?_, ?_⟩
  · intro s hs0 hsd
    have hd : ¬ video.duration ≤ 0 := not_le.mpr (lt_of_le_of_lt hs0 hsd)
    have hfl : ⌊s / video.duration⌋ = 0 := by
      rw [Int.floor_eq_zero_iff]
      constructor
      · exact div_nonneg hs0 (le_of_lt (not_le.mp hd))
      · rw [div_lt_one (not_le.mp hd)]
        exact hsd
    simp [merge_video_audio, with_audio, with_duration, hd, hfl]
  · intro hd s
    have hd' : ¬ video.duration ≤ 0 := not_le.mpr hd
    simp [merge_video_audio, with_audio, with_duration, hd']

theorem merge_duration_audio_witness :
    (merge_video_audio ⟨3, fun _ => 7, none⟩ ⟨7, 5⟩).duration = (7 : ℚ) ∧
    (merge_video_audio ⟨3, fun _ => 7, none⟩ ⟨7, 5⟩).audio = some ⟨7, 5⟩ ∧
    (merge_video_audio ⟨3, fun _ => 7, none⟩ ⟨7, 5⟩).frame 2 =
      (⟨3, fun _ => 7, none⟩ : VideoClip).frame 2 :=
  ⟨(merge_duration_audio ⟨3, fun _ => 7, none⟩ ⟨7, 5⟩).1,
   (merge_duration_audio ⟨3, fun _ => 7, none⟩ ⟨7, 5⟩).2.1,
   (merge_duration_audio ⟨3, fun _ => 7, none⟩ ⟨7, 5⟩).2.2.1 2
     (by norm_num) (by norm_num)⟩

/-- Crockford base32 alphabet of the ULID encoding. -/
def CROCKFORD : List Char := "0123456789ABCDEFGHJKMNPQRSTVWXYZ".toList

/-- Character for one base32 digit. -/
def b32char (d : Nat) : Char := CROCKFORD.getD d '0'

/-- Big-endian fixed-width base32 digit string of `v`: digit `k` counted
from the most significant is `v / 32 ^ (len - 1 - k) % 32`. -/
def encodeB32 : Nat → Nat → List Char
  | 0, _ => []
  | len + 1, v => b32char (v / 32 ^ len % 32) :: encodeB32 len v

/-- Modelled from the spec: `ulid.new()` of the external ULID library — a
26-character Crockford base32 string, the 48-bit millisecond timestamp in
the first 10 characters followed by 80 random bits, lexicographically
sortable by generation time. -/
def ulid_str (t r : Nat) : String := ⟨encodeB32 10 t ++ encodeB32 16 r⟩

theorem encodeB32_length (len : Nat) : ∀ v : Nat, (encodeB32 len v).length = len := by
  induction len with
  | zero => intro v; rfl
  | succ k ih => intro v; simp [encodeB32, ih]

theorem encodeB32_mod (len : Nat) :
    ∀ v : Nat, encodeB32 len (v % 32 ^ len) = encodeB32 len v := by
  induction len with
  | zero => intro v; rfl
  | succ k ih =>
    intro v
    have hdig : v % 32 ^ (k + 1) / 32 ^ k % 32 = v / 32 ^ k % 32 := by
      rw [pow_succ, Nat.mod_mul_right_div_self, Nat.mod_mod_of_dvd _ (dvd_refl 32)]
    have htail : encodeB32 k (v % 32 ^ (k + 1)) = encodeB32 k v := by
      have h1 : v % 32 ^ (k + 1) % 32 ^ k = v % 32 ^ k :=
        Nat.mod_mod_of_dvd v (pow_dvd_pow 32 (Nat.le_succ k))
      calc encodeB32 k (v % 32 ^ (k + 1))
          = encodeB32 k (v % 32 ^ (k + 1) % 32 ^ k) := (ih _).symm
        _ = encodeB32 k (v % 32 ^ k) := by rw [h1]
        _ = encodeB32 k v := ih v
    simp [encodeB32, hdig, htail]

theorem b32char_lt : ∀ d1 < 32, ∀ d2 < 32, d1 < d2 → b32char d1 < b32char d2 := by
  decide

theorem encodeB32_lt (len : Nat) : ∀ v1 v2 : Nat, v1 < v2 → v2 < 32 ^ len →
    List.Lex (· < ·) (encodeB32 len v1) (encodeB32 len v2) := by
  induction len with
  | zero =>
    intro v1 v2 h12 hb
    rw [pow_zero] at hb
    omega
  | succ k ih =>
    intro v1 v2 h12 hb
    have hk : 0 < 32 ^ k := Nat.pos_pow_of_pos k (by norm_num)
    have hd2 : v2 / 32 ^ k < 32 := by
      rw [Nat.div_lt_iff_lt_mul hk]
      rw [pow_succ] at hb
      omega
    have hd1le : v1 / 32 ^ k ≤ v2 / 32 ^ k := Nat.div_le_div_right (le_of_lt h12)
    have hd1 : v1 / 32 ^ k < 32 := lt_of_le_of_lt hd1le hd2
    have hm1 : v1 / 32 ^ k % 32 = v1 / 32 ^ k := Nat.mod_eq_of_lt hd1
    have hm2 : v2 / 32 ^ k % 32 = v2 / 32 ^ k := Nat.mod_eq_of_lt hd2
    rcases lt_or_eq_of_le hd1le with hlt | heq
    · apply List.Lex.rel
      rw [hm1, hm2]
      exact b32char_lt _ hd1 _ hd2 hlt
    · show List.Lex (· < ·)
        (b32char (v1 / 32 ^ k % 32) :: encodeB32 k v1)
        (b32char (v2 / 32 ^ k % 32) :: encodeB32 k v2)
      rw [hm1, hm2, heq]
      apply List.Lex.cons
      have e1 := Nat.div_add_mod v1 (32 ^ k)
      have e2 := Nat.div_add_mod v2 (32 ^ k)
      have hmod12 : v1 % 32 ^ k < v2 % 32 ^ k := by
        rw [heq] at e1
        omega
      rw [← encodeB32_mod k v1, ← encodeB32_mod k v2]
      exact ih _ _ hmod12 (Nat.mod_lt _ hk)

theorem lex_append_of_lex {l1 l2 : List Char} (h : List.Lex (· < ·) l1 l2)
    (hlen : l1.length = l2.length) :
    ∀ s1 s2 : List Char, List.Lex (· < ·) (l1 ++ s1) (l2 ++ s2) := by
  induction h with
  | nil => simp at hlen
  | rel hab => intro s1 s2; exact List.Lex.rel hab
  | cons h' ih =>
    intro s1 s2
    exact List.Lex.cons (ih (by simpa using hlen) s1 s2)

/-- Embedding of the basename computation of `download_video`
(src/main.py line 290): the segment after the last slash, cut before the
first question mark. -/
def url_basename_of (url : String) : List Char :=
  ((url.data.reverse.takeWhile (fun c => c ≠ '/')).reverse).takeWhile
    (fun c => c ≠ '?')

/-- Test of `download_video` line 291: `not url_basename or "." not in
url_basename`, selecting the bare `.mp4` destination name. -/
def dl_use_mp4 (url : String) : Bool :=
  (url_basename_of url).isEmpty || !(url_basename_of url).contains '.'

/-- Embedding of the destination-filename choice of `download_video`
(src/main.py lines 291-294), with the ULID generator's timestamp and
randomness as explicit inputs. -/
def download_filename (url : String) (t r : Nat) : String :=
  if dl_use_mp4 url then
    ulid_str t r ++ ".mp4"
  else
    ulid_str t r ++ "_" ++ ⟨url_basename_of url⟩

/-- Characters the download filename appends after the 26 ULID characters. -/
def dl_suffix (url : String) : List Char :=
  if dl_use_mp4 url then ".mp4".data else '_' :: url_basename_of url

theorem download_filename_data (url : String) (t r : Nat) :
    (download_filename url t r).data =
      encodeB32 10 t ++ (encodeB32 16 r ++ dl_suffix url) := by
  by_cases h : dl_use_mp4 url = true
  · simp only [download_filename, dl_suffix, h, if_pos]
    simp [ulid_str, String.data_append, List.append_assoc]
  · simp only [download_filename, dl_suffix, h, if_neg, Bool.false_eq_true,
      not_false_iff]
    simp [ulid_str, String.data_append, List.append_assoc]

/-- C7: the download destination is `{ulid}_{basename}` when the URL's
basename contains a dot and `{ulid}.mp4` otherwise, and because the leading
26-character ULID is ordered by its 48-bit timestamp, a download generated
at a strictly later millisecond always sorts strictly after an earlier one,
whatever the URLs and the random bits. -/
theorem download_naming_monotonic (url1 url2 : String) (t1 r1 t2 r2 : Nat)
    (ht : t1 < t2) (hb : t2 < 2 ^ 48) :
    (∀ url t r, (url_basename_of url).contains '.' = true →
      download_filename url t r = ulid_str t r ++ "_" ++ ⟨url_basename_of url⟩) ∧
    (∀ url t r, (url_basename_of url).contains '.' = false →
      download_filename url t r = ulid_str t r ++ ".mp4") ∧
    download_filename url1 t1 r1 < download_filename url2 t2 r2 := by
  refine ⟨?_, ?_, ?_⟩
  · intro url t r h
    have hmp4 : dl_use_mp4 url = false := by
      unfold dl_use_mp4
      cases hl : url_basename_of url with
      | nil => rw [hl] at h; simp at h
      | cons a as =>
        rw [hl] at h
        have hmem : '.' ∈ a :: as := by simpa using h
        simp [hmem]
    simp [download_filename, hmp4]
  · intro url t r h
    have hmp4 : dl_use_mp4 url = true := by
      unfold dl_use_mp4
      have hmem : '.' ∉ url_basename_of url := by simpa using h
      simp [hmem]
    simp [download_filename, hmp4]
  · rw [String.lt_iff_toList_lt]
    show List.Lex (· < ·) (download_filename url1 t1 r1).data
      (download_filename url2 t2 r2).data
    rw [download_filename_data, download_filename_data]
    refine lex_append_of_lex ?_ ?_ _ _
    · exact encodeB32_lt 10 t1 t2 ht
        (lt_trans hb (by norm_num))
    · rw [encodeB32_length, encodeB32_length]

theorem download_naming_monotonic_witness :
    download_filename "http://host/clip.mp4" 1 0 =
      ulid_str 1 0 ++ "_" ++ ⟨url_basename_of "http://host/clip.mp4"⟩ ∧
    download_filename "http://host/page" 1 0 = ulid_str 1 0 ++ ".mp4" ∧
    download_filename "http://host/clip.mp4" 1 7 <
      download_filename "http://host/clip.mp4" 2 0 :=
  ⟨(download_naming_monotonic "x" "x" 1 7 2 0 (by norm_num)
      (by norm_num)).1 "http://host/clip.mp4" 1 0 (by decide),
   (download_naming_monotonic "x" "x" 1 7 2 0 (by norm_num)
      (by norm_num)).2.1 "http://host/page" 1 0 (by decide),
   (download_naming_monotonic "http://host/clip.mp4" "http://host/clip.mp4"
      1 7 2 0 (by norm_num) (by norm_num)).2.2⟩

theorem startswith_empty (f : String) : startswith f "" = true := by
  cases hd : f.data <;> simp [startswith, List.isPrefixOf]

/-- Embedding of the DELETE /voices/{voice_id} endpoint (src/main.py lines
268-281).  Its scan (lines 272-275) is the same first-prefix-match loop as
the voice resolution of `process_generation_task`; on a match the file is
removed, otherwise 404 "Voice ID not found". -/
def delete_voice_sample (listing : List String) (voice_id : String) :
    Except HttpError (String × List String) :=
  match resolveVoice listing voice_id with
  | some f => .ok (f, listing.erase f)
  | none => .error ⟨404, "Voice ID not found"⟩

/-- C9: voice lookup is a bare prefix scan — the empty voice id matches the
first entry of any non-empty directory listing, so resolution succeeds
(never "Voice ID not found") and returns whichever file is listed first,
and the delete endpoint removes exactly the first file matching the given
prefix. -/
theorem empty_voice_id_matches (listing : List String) (voice_id : String)
    (hne : listing ≠ []) :
    resolveVoice listing "" = listing.head? ∧
    (resolveVoice listing "").isSome ∧
    (∀ f, resolveVoice listing voice_id = some f →
      delete_voice_sample listing voice_id = .ok (f, listing.erase f)) ∧
    delete_voice_sample listing "" =
      .ok (listing.head hne, listing.erase (listing.head hne)) := by
  have hres : resolveVoice listing "" = listing.head? := by
    cases listing with
    | nil => rfl
    | cons a l => simp [resolveVoice, List.find?_cons, startswith_empty]
  refine ⟨hres, ?_, ?_, ?_⟩
  · rw [hres]
    cases listing with
    | nil => exact absurd rfl hne
    | cons a l => rfl
  · intro f hf
    simp [delete_voice_sample, hf]
  · cases listing with
    | nil => exact absurd rfl hne
    | cons a l =>
      have ha : resolveVoice (a :: l) "" = some a := by
        rw [hres]; rfl
      simp [delete_voice_sample, ha]

theorem empty_voice_id_matches_witness :
    resolveVoice ["a.wav", "b.wav"] "" = some "a.wav" ∧
    delete_voice_sample ["a.wav", "b.wav"] "b" =
      Except.ok ("b.wav", ["a.wav"]) :=
  ⟨by rw [(empty_voice_id_matches ["a.wav", "b.wav"] "b" (by decide)).1]; rfl,
   (empty_voice_id_matches ["a.wav", "b.wav"] "b" (by decide)).2.2.1 "b.wav" rfl⟩

/-- Failure modes of the remote fetch in `download_video`: a non-success
HTTP status (`httpx.HTTPStatusError`) or a transport failure
(`httpx.RequestError`). -/
inductive FetchErr where
  | statusError (code : Nat)
  | requestError (msg : String)

/-- Observable outcome of one `/videos/download` call: its HTTP result and
the directories existing afterwards. -/
structure DownloadEffects where
  result : Except HttpError (String × String)
  dirs : List String

/-- Embedding of the POST /videos/download endpoint (src/main.py lines
283-315): `os.makedirs(project_path, exist_ok=True)` runs before the remote
fetch; the destination filename is chosen before the fetch; a fetch failure
maps to HTTP 502 and nothing is rolled back. -/
def download_video (dirs0 : List String) (url project_folder : String)
    (t r : Nat) (fetch : Except FetchErr Unit) : DownloadEffects :=
  let project_path := osJoin OUTPUT_DIR project_folder
  let dirs1 := if project_path ∈ dirs0 then dirs0 else project_path :: dirs0
  let url_filename := download_filename url t r
  let file_path := osJoin project_path url_filename
  match fetch with
  | .error (.statusError code) =>
    ⟨.error ⟨502, "Remote server returned " ++ toString code⟩, dirs1⟩
  | .error (.requestError msg) =>
    ⟨.error ⟨502, "Download failed: " ++ msg⟩, dirs1⟩
  | .ok _ => ⟨.ok (url_filename, file_path), dirs1⟩

/-- C10: when the remote fetch fails, the endpoint returns a 502 error, yet
the project directory has already been created and is left in place, and no
pre-existing path is removed — the filesystem effect is not rolled back. -/
theorem download_failure_keeps_directory (dirs0 : List String)
    (url project_folder : String) (t r : Nat) (e : FetchErr) :
    (∃ d, (download_video dirs0 url project_folder t r (.error e)).result =
        Except.error d ∧ d.status_code = 502) ∧
    osJoin OUTPUT_DIR project_folder ∈
      (download_video dirs0 url project_folder t r (.error e)).dirs ∧
    (∀ p, p ∈ dirs0 →
      p ∈ (download_video dirs0 url project_folder t r (.error e)).dirs) := by
  refine ⟨?_, ?_, ?_⟩
  · cases e with
    | statusError code =>
      exact ⟨⟨502, "Remote server returned " ++ toString code⟩, rfl, rfl⟩
    | requestError msg =>
      exact ⟨⟨502, "Download failed: " ++ msg⟩, rfl, rfl⟩
  · cases e <;> simp only [download_video] <;> split_ifs with h <;>
      simp [h]
  · intro p hp
    cases e <;> simp only [download_video] <;> split_ifs with h <;>
      simp [hp]

theorem download_failure_keeps_directory_witness :
    osJoin OUTPUT_DIR "proj" ∈
      (download_video [] "http://host/clip.mp4" "proj" 1 0
        (Except.error (FetchErr.statusError 404))).dirs :=
  (download_failure_keeps_directory [] "http://host/clip.mp4" "proj" 1 0
    (FetchErr.statusError 404)).2.1

end QwenFast
